import Mathlib

/-
Verification of the GPU array / property-synchronizer / kernel-cache core
of pysph (src/pysph/base/opencl.py and src/pysph/base/gpu_nnps_helper.py),
as a shallow embedding.  Device memory is modelled as a heap of blocks so
that aliasing between buffer views and stored blocks is represented
faithfully; contents of freshly allocated (uninitialized) device memory
are an explicit parameter of every allocating operation.
-/

namespace Pysph

/-- Python list slice l[:s]: for nonnegative s it takes the first s
elements (clamped at the list length); for negative s it drops the last
(-s) elements, yielding the empty list when (-s) is at least the length. -/
def pyTake (l : List Int) (s : Int) : List Int :=
  if s < 0 then l.take (l.length - min l.length s.natAbs) else l.take s.toNat

/-- Device memory: a list of allocated blocks, each a list of element
values.  Buffer handles are indices into this list. -/
abbrev Heap := List (List Int)

/-- Read the block stored at reference r (empty when r is unallocated). -/
def heapGet (h : Heap) (r : Nat) : List Int := (h[r]?).getD []

/-- Overwrite the block stored at reference r. -/
def heapSet (h : Heap) (r : Nat) (b : List Int) : Heap := h.set r b

/-- Model of cl.array.empty: allocate a fresh block of n elements whose
initial contents are unspecified and supplied by the uninit parameter
(indexed by the fresh reference and the position).  Returns the new heap
and the fresh reference. -/
def clEmpty (uninit : Nat → Nat → Int) (h : Heap) (n : Nat) : Heap × Nat :=
  (h ++ [(List.range n).map (uninit h.length)], h.length)

/-- Model of the in-place assignment dst[:len(src)] = src on a device
block: the written positions take the source values and the rest of dst
is unchanged (the sources only perform this with len(src) at most
len(dst)). -/
def blockWrite (dst src : List Int) : List Int :=
  src.take dst.length ++ dst.drop src.length

/-- Insertion-ordered dictionary update, as on a Python dict: replace the
value in place when the key is present, otherwise append the binding. -/
def assocSet {β : Type} (l : List (String × β)) (k : String) (v : β) :
    List (String × β) :=
  if l.any (fun p => p.1 = k) then
    l.map (fun p => if p.1 = k then (k, v) else p)
  else l ++ [(k, v)]

/-! Basic lemmas about the primitives. -/

theorem length_blockWrite (dst src : List Int) :
    (blockWrite dst src).length = dst.length := by
  simp [blockWrite]
  omega

theorem blockWrite_eq_of_le {dst src : List Int}
    (h : src.length ≤ dst.length) :
    blockWrite dst src = src ++ dst.drop src.length := by
  simp [blockWrite, List.take_of_length_le h]

theorem heapGet_append_left {h : Heap} {t : Heap} {r : Nat}
    (hr : r < h.length) : heapGet (h ++ t) r = heapGet h r := by
  simp [heapGet, List.getElem?_append_left hr]

theorem heapGet_append_last (h : Heap) (b : List Int) :
    heapGet (h ++ [b]) h.length = b := by
  simp [heapGet]

theorem heapSet_append_last (h : Heap) (b c : List Int) :
    heapSet (h ++ [b]) h.length c = h ++ [c] := by
  induction h with
  | nil => simp [heapSet]
  | cons x xs ih =>
      simp [heapSet] at ih ⊢

theorem heapGet_set_self {h : Heap} {r : Nat} (b : List Int)
    (hr : r < h.length) : heapGet (heapSet h r b) r = b := by
  simp [heapGet, heapSet, List.getElem?_set_self, hr]

theorem heapGet_set_ne {h : Heap} {r r2 : Nat} (b : List Int)
    (hne : r ≠ r2) : heapGet (heapSet h r b) r2 = heapGet h r2 := by
  simp [heapGet, heapSet, List.getElem?_set_ne hne]

theorem pyTake_nonneg (l : List Int) (s : Int) (hs : 0 ≤ s) :
    pyTake l s = l.take s.toNat := by
  simp [pyTake, not_lt.mpr hs]

theorem pyTake_natCast (l : List Int) (n : Nat) :
    pyTake l (n : Int) = l.take n := by
  simp [pyTake]

/-!
Device Buffer: class DeviceArray of src/pysph/base/opencl.py.
-/

/-- Device-resident growable array.  dataRef points at the backing block
in the heap (attribute _data); length is the logical length, kept as an
Int because the source never validates it; alloc is the allocated
capacity; dtype is the numpy dtype tag.  The view attribute (array) is
recomputed on demand from the heap, mirroring _update_array_ref. -/
structure DeviceArray where
  dataRef : Nat
  length : Int
  alloc : Nat
  dtype : String
deriving DecidableEq

/-- Constructor DeviceArray(dtype, n=0): a request of zero elements is
bumped to 16 before allocation; set_data records length and alloc as the
block size, after which length is restored to the requested n. -/
def DeviceArray.init (uninit : Nat → Nat → Int) (h : Heap) (dtype : String)
    (n : Nat) : Heap × DeviceArray :=
  let n2 := if n = 0 then 16 else n
  let e := clEmpty uninit h n2
  (e.1, ⟨e.2, (n : Int), n2, dtype⟩)

/-- View attribute self.array = self._data[:self.length], recomputed by
_update_array_ref after every mutation; realized here on demand. -/
def DeviceArray.array (h : Heap) (a : DeviceArray) : List Int :=
  pyTake (heapGet h a.dataRef) a.length

/-- Method reserve(size): when size exceeds the current capacity,
allocate a block of exactly size elements, copy the whole old block into
its prefix, and swap the storage; otherwise do nothing. -/
def DeviceArray.reserve (uninit : Nat → Nat → Int) (h : Heap)
    (a : DeviceArray) (size : Int) : Heap × DeviceArray :=
  if (a.alloc : Int) < size then
    let e := clEmpty uninit h size.toNat
    let h2 := heapSet e.1 e.2 (blockWrite (heapGet e.1 e.2) (heapGet h a.dataRef))
    (h2, { a with dataRef := e.2, alloc := size.toNat })
  else (h, a)

/-- Method resize(size): reserve, then set the logical length to size and
refresh the view. -/
def DeviceArray.resize (uninit : Nat → Nat → Int) (h : Heap)
    (a : DeviceArray) (size : Int) : Heap × DeviceArray :=
  let e := DeviceArray.reserve uninit h a size
  (e.1, { e.2 with length := size })

/-- Method fill(value): overwrite the view region (the first length
elements of the backing block) with value. -/
def DeviceArray.fill (h : Heap) (a : DeviceArray) (v : Int) : Heap :=
  let block := heapGet h a.dataRef
  let n := (pyTake block a.length).length
  heapSet h a.dataRef (List.replicate n v ++ block.drop n)

/-- Method copy(): build DeviceArray(self.dtype) (which allocates a
16-element scratch block that is immediately abandoned), device-copy the
view into a fresh block, and set_data that block on the new object, so
the result has length, alloc and contents equal to the view of the
source. -/
def DeviceArray.copy (uninit : Nat → Nat → Int) (h : Heap)
    (a : DeviceArray) : Heap × DeviceArray :=
  let e := DeviceArray.init uninit h a.dtype 0
  let contents := DeviceArray.array e.1 a
  let h2 := e.1 ++ [contents]
  (h2, ⟨e.1.length, (contents.length : Int), contents.length, a.dtype⟩)

/-!
Property Synchronizer: class DeviceHelper of src/pysph/base/opencl.py.
The host-side particle container and its per-property carrays are
repository code outside the analysed sources, so they are modelled from
the specification of the host interface.
-/

/-- Modelled from the spec: a host-side carray of the particle container
(pysph carray, not among the analysed sources).  It exposes a C type tag
(get_c_type), its logical values (get_npy_array, of the logical length),
and an allocated capacity alloc; set_data stores the given values. -/
structure CArray where
  ctype : String
  values : List Int
  alloc : Nat
deriving DecidableEq

/-- Logical length of a host carray: the length of its value array. -/
def CArray.length (c : CArray) : Nat := c.values.length

/-- Modelled from the spec: the host particle container, exposing an
insertion-ordered mapping of property names to carrays and another of
constant names to carrays. -/
structure ParticleArray where
  properties : List (String × CArray)
  constants : List (String × CArray)
deriving DecidableEq

/-- Method DeviceHelper._get_prop_or_const: look the name up among the
properties, then among the constants. -/
def ParticleArray.getPropOrConst (pa : ParticleArray) (name : String) :
    Option CArray :=
  match pa.properties.lookup name with
  | some c => some c
  | none => pa.constants.lookup name

/-- Modelled from the spec: carray.set_data stores the given values on
the named host array (looked up as in _get_prop_or_const, properties
first). -/
def ParticleArray.setData (pa : ParticleArray) (name : String)
    (vals : List Int) : ParticleArray :=
  if (pa.properties.map Prod.fst).contains name then
    ⟨pa.properties.map
        (fun p => if p.1 = name then (p.1, ⟨p.2.ctype, vals, p.2.alloc⟩) else p),
      pa.constants⟩
  else
    ⟨pa.properties,
      pa.constants.map
        (fun p => if p.1 = name then (p.1, ⟨p.2.ctype, vals, p.2.alloc⟩) else p)⟩

/-- Method DeviceHelper._get_array: host values of a carray, cast
elementwise by fcast (modelling astype to the configured device
precision) when the C type is float or double, passed through otherwise. -/
def get_array (fcast : Int → Int) (c : CArray) : List Int :=
  if c.ctype = "float" ∨ c.ctype = "double" then c.values.map fcast
  else c.values

/-- A device-side view stored by setattr on the helper: a reference to a
backing block plus the slice stop (all DeviceHelper views are prefix
slices with a nonnegative stop). -/
structure View where
  ref : Nat
  stop : Nat
deriving DecidableEq

/-- Contents of a stored view, read from the heap. -/
def View.read (h : Heap) (v : View) : List Int :=
  (heapGet h v.ref).take v.stop

/-- State of class DeviceHelper: the _data dict from names to backing
blocks, the views stored on the object by setattr, the managed property
name list _props, and the shared size _alloc. -/
structure DeviceHelper where
  data : List (String × Nat)
  attrs : List (String × View)
  props : List String
  alloc : Nat
deriving DecidableEq

/-- Method DeviceHelper.add_prop(name, carray): allocate a device block
of the host capacity, write the cast host values through the prefix view
of the host logical length, store block and view under the name, and
append the name to _props when it is among the particle array properties
(note: among the properties of the container, not a test of which kind is
being added). -/
def DeviceHelper.add_prop (fcast : Int → Int) (uninit : Nat → Nat → Int)
    (pa : ParticleArray) (s : Heap × DeviceHelper)
    (name : String) (carray : CArray) : Heap × DeviceHelper :=
  let np := get_array fcast carray
  let e := clEmpty uninit s.1 carray.alloc
  let h2 := heapSet e.1 e.2 (blockWrite (heapGet e.1 e.2) np)
  (h2,
    ⟨assocSet s.2.data name e.2,
      assocSet s.2.attrs name ⟨e.2, carray.length⟩,
      if (pa.properties.map Prod.fst).contains name then s.2.props ++ [name]
      else s.2.props,
      s.2.alloc⟩)

/-- Python error surfaced by the embedded DeviceHelper constructor. -/
inductive PyErr where
  | keyError
deriving DecidableEq

/-- Registration loop of the DeviceHelper constructor: add_prop each
entry of the given name-to-carray list in order. -/
def addProps (fcast : Int → Int) (uninit : Nat → Nat → Int)
    (pa : ParticleArray) (s : Heap × DeviceHelper)
    (L : List (String × CArray)) : Heap × DeviceHelper :=
  L.foldl (fun s p => DeviceHelper.add_prop fcast uninit pa s p.1 p.2) s

/-- Constructor DeviceHelper(particle_array): start empty, add_prop every
property then every constant, and if any entry was registered set _alloc
to len(self._data[x]), the size of the device block stored under the
name x (a KeyError when no entry is named x). -/
def DeviceHelper.init (fcast : Int → Int) (uninit : Nat → Nat → Int)
    (h : Heap) (pa : ParticleArray) : Except PyErr (Heap × DeviceHelper) :=
  let s := addProps fcast uninit pa (h, ⟨[], [], [], 0⟩)
    (pa.properties ++ pa.constants)
  if s.2.data.isEmpty then .ok s
  else
    match s.2.data.lookup "x" with
    | none => .error .keyError
    | some r => .ok (s.1, ⟨s.2.data, s.2.attrs, s.2.props, (heapGet s.1 r).length⟩)

/-- One iteration of the reallocation loop of DeviceHelper.resize: read
the current block of the property, allocate a fresh block of exactly
new_size elements, copy min(len(old), new_size) leading elements into
it, and repoint the _data entry. -/
def reallocStep (uninit : Nat → Nat → Int) (newSize : Nat)
    (s : Heap × List (String × Nat)) (prop : String) :
    Heap × List (String × Nat) :=
  let old := heapGet s.1 ((s.2.lookup prop).getD 0)
  let e := clEmpty uninit s.1 newSize
  let sz := min old.length newSize
  let h2 := heapSet e.1 e.2 (blockWrite (heapGet e.1 e.2) (old.take sz))
  (h2, assocSet s.2 prop e.2)

/-- Method DeviceHelper.resize(new_size): when new_size exceeds _alloc,
reallocate every managed property block to exactly new_size elements
(copying the surviving prefix) and update _alloc; then, in every case,
re-store each managed property view as _data[prop][:new_size]. -/
def DeviceHelper.resize (uninit : Nat → Nat → Int) (h : Heap)
    (dh : DeviceHelper) (newSize : Nat) : Heap × DeviceHelper :=
  let s1 :=
    if dh.alloc < newSize then
      let r := dh.props.foldl (reallocStep uninit newSize) (h, dh.data)
      (r.1, (⟨r.2, dh.attrs, dh.props, newSize⟩ : DeviceHelper))
    else (h, dh)
  let attrs2 := s1.2.props.foldl
    (fun ats prop =>
      assocSet ats prop ⟨(s1.2.data.lookup prop).getD 0, newSize⟩)
    s1.2.attrs
  (s1.1, ⟨s1.2.data, attrs2, s1.2.props, s1.2.alloc⟩)

/-- Method DeviceHelper.push for a single name: write the cast host
values of the named host array through the stored device view (the
backend rejects a shape mismatch, hence the length guard). -/
def DeviceHelper.push1 (fcast : Int → Int) (pa : ParticleArray) (h : Heap)
    (dh : DeviceHelper) (name : String) : Option Heap :=
  match dh.attrs.lookup name, pa.getPropOrConst name with
  | some v, some ca =>
      let np := get_array fcast ca
      if np.length = (View.read h v).length then
        some (heapSet h v.ref (blockWrite (heapGet h v.ref) np))
      else none
  | _, _ => none

/-- Method DeviceHelper.pull for a single name: read the stored device
view and set_data it on the corresponding host array. -/
def DeviceHelper.pull1 (pa : ParticleArray) (h : Heap)
    (dh : DeviceHelper) (name : String) : Option ParticleArray :=
  match dh.attrs.lookup name, pa.getPropOrConst name with
  | some v, some _ => some (pa.setData name (View.read h v))
  | _, _ => none

/-!
Kernel Cache: class GPUNNPSHelper of src/pysph/base/gpu_nnps_helper.py.
Keyword arguments are modelled as the insertion-ordered list of
name-value pairs that Python builds from the call; compiled kernel
objects are modelled by their identity, a serial number drawn from a
counter that advances on every ElementwiseKernel construction.
-/

/-- Cache key built by get_kernel: the kernel name together with
tuple(kwargs.items()), the keyword arguments in call order. -/
abbrev KKey := String × List (String × Int)

/-- State of class GPUNNPSHelper: the rendered data_t, the rendered
shared preamble, the cache dict, and the serial counter modelling object
identity of compiled kernels. -/
structure GPUNNPSHelper where
  data_t : String
  preamble : String
  cache : List (KKey × Nat)
  nextId : Nat
deriving DecidableEq

/-- Method GPUNNPSHelper._get_code: render the argument sub-template and
the source sub-template of the named kernel; tplRender models
src_tpl.get_def(defname).render(data_t, kwargs) and may fail, which
propagates. -/
def get_code (tplRender : String → String → List (String × Int) → Except Unit String)
    (s : GPUNNPSHelper) (kernel_name : String)
    (kwargs : List (String × Int)) : Except Unit (String × String) :=
  match tplRender (kernel_name ++ "_args") s.data_t kwargs with
  | .error e => .error e
  | .ok args =>
      match tplRender (kernel_name ++ "_src") s.data_t kwargs with
      | .error e => .error e
      | .ok src => .ok (args, src)

/-- Method GPUNNPSHelper.get_kernel: look (name, tuple(kwargs.items()))
up in the cache and return the stored kernel on a hit; on a miss render
the code, construct an ElementwiseKernel (compileOk models whether the
backend compilation succeeds, and a fresh serial number models the new
object) and store it under the key.  The pair returned carries the
outcome together with the helper state after the call; on an error the
state is the one at the raise point. -/
def get_kernel (tplRender : String → String → List (String × Int) → Except Unit String)
    (compileOk : String → String → String → String → Bool)
    (s : GPUNNPSHelper) (kernel_name : String)
    (kwargs : List (String × Int)) : Except Unit Nat × GPUNNPSHelper :=
  let data : KKey := (kernel_name, kwargs)
  match s.cache.lookup data with
  | some knl => (.ok knl, s)
  | none =>
      match get_code tplRender s kernel_name kwargs with
      | .error e => (.error e, s)
      | .ok p =>
          if compileOk p.1 p.2 kernel_name s.preamble then
            (.ok s.nextId,
              ⟨s.data_t, s.preamble, s.cache ++ [(data, s.nextId)], s.nextId + 1⟩)
          else (.error (), s)

/-!
Lemmas about lookup on insertion-ordered dictionaries.
-/

theorem lookup_cons_self {α β : Type} [BEq α] [LawfulBEq α] (k : α) (v : β)
    (t : List (α × β)) : ((k, v) :: t).lookup k = some v := by
  simp [List.lookup]

theorem lookup_cons_ne {α β : Type} [BEq α] [LawfulBEq α] {k k2 : α}
    (hne : k2 ≠ k) (v : β)
    (t : List (α × β)) : ((k, v) :: t).lookup k2 = t.lookup k2 := by
  simp [List.lookup, beq_false_of_ne hne]

theorem lookup_eq_none_iff_any {β : Type} {l : List (String × β)}
    {k : String} : l.lookup k = none ↔ l.any (fun p => p.1 = k) = false := by
  induction l with
  | nil => simp
  | cons p t ih =>
      obtain ⟨a, b⟩ := p
      by_cases hk : k = a
      · subst hk
        rw [lookup_cons_self]
        simp
      · rw [lookup_cons_ne hk]
        simp [ih, Ne.symm hk]

theorem keys_contains_eq_any {β : Type} (l : List (String × β))
    (k : String) :
    (l.map Prod.fst).contains k = l.any (fun p => p.1 = k) := by
  induction l with
  | nil => rfl
  | cons p t ih =>
      obtain ⟨a, b⟩ := p
      by_cases hk : k = a
      · subst hk
        simp
      · have h2 : (k == a) = false := beq_false_of_ne hk
        rw [List.map_cons, List.contains_cons, h2, Bool.false_or, ih,
          List.any_cons]
        have h3 : (decide ((a, b).1 = k)) = false := by
          simp [Ne.symm hk]
        rw [h3, Bool.false_or]

theorem lookup_append_left_of_some {α β : Type} [BEq α] [LawfulBEq α]
    [DecidableEq α] {l1 l2 : List (α × β)}
    {k : α} {v : β} (h : l1.lookup k = some v) :
    (l1 ++ l2).lookup k = some v := by
  induction l1 with
  | nil => simp [List.lookup] at h
  | cons p t ih =>
      obtain ⟨a, b⟩ := p
      by_cases hk : k = a
      · subst hk
        rw [lookup_cons_self] at h
        rw [List.cons_append, lookup_cons_self]
        exact h
      · rw [lookup_cons_ne hk] at h
        rw [List.cons_append, lookup_cons_ne hk]
        exact ih h

theorem lookup_append_of_none {α β : Type} [BEq α] [LawfulBEq α]
    [DecidableEq α] {l1 l2 : List (α × β)}
    {k : α} (h : l1.lookup k = none) :
    (l1 ++ l2).lookup k = l2.lookup k := by
  induction l1 with
  | nil => simp
  | cons p t ih =>
      obtain ⟨a, b⟩ := p
      by_cases hk : k = a
      · subst hk
        rw [lookup_cons_self] at h
        exact absurd h (by simp)
      · rw [lookup_cons_ne hk] at h
        rw [List.cons_append, lookup_cons_ne hk]
        exact ih h

theorem lookup_mapUpdate_self {β : Type} {l : List (String × β)}
    {k : String} (v : β) (hmem : l.any (fun p => p.1 = k) = true) :
    (l.map (fun p => if p.1 = k then (k, v) else p)).lookup k = some v := by
  induction l with
  | nil => simp at hmem
  | cons p t ih =>
      obtain ⟨a, b⟩ := p
      by_cases hk : a = k
      · simp only [List.map_cons]
        rw [if_pos hk, lookup_cons_self]
      · simp only [List.any_cons, decide_eq_true_eq, hk, false_or,
          Bool.false_or] at hmem
        simp only [List.map_cons]
        rw [if_neg hk, lookup_cons_ne (Ne.symm hk)]
        exact ih hmem

theorem lookup_mapUpdate_ne {β : Type} (l : List (String × β))
    (k : String) (v : β) {k2 : String} (hne : k2 ≠ k) :
    (l.map (fun p => if p.1 = k then (k, v) else p)).lookup k2 =
      l.lookup k2 := by
  induction l with
  | nil => simp
  | cons p t ih =>
      obtain ⟨a, b⟩ := p
      by_cases hk : a = k
      · subst hk
        simp only [List.map_cons, eq_self_iff_true, if_true]
        rw [lookup_cons_ne hne, lookup_cons_ne hne]
        exact ih
      · simp only [List.map_cons, if_neg hk]
        by_cases hk2 : k2 = a
        · subst hk2
          rw [lookup_cons_self, lookup_cons_self]
        · rw [lookup_cons_ne hk2, lookup_cons_ne hk2]
          exact ih

theorem lookup_assocSet_self {β : Type} (l : List (String × β))
    (k : String) (v : β) : (assocSet l k v).lookup k = some v := by
  unfold assocSet
  by_cases hmem : l.any (fun p => p.1 = k) = true
  · rw [if_pos hmem]
    exact lookup_mapUpdate_self v hmem
  · rw [if_neg hmem]
    have hnone : l.lookup k = none :=
      lookup_eq_none_iff_any.mpr (Bool.eq_false_iff.mpr hmem)
    rw [lookup_append_of_none hnone, lookup_cons_self]

theorem lookup_assocSet_ne {β : Type} (l : List (String × β))
    (k : String) (v : β) {k2 : String} (hne : k2 ≠ k) :
    (assocSet l k v).lookup k2 = l.lookup k2 := by
  unfold assocSet
  by_cases hmem : l.any (fun p => p.1 = k) = true
  · rw [if_pos hmem]
    exact lookup_mapUpdate_ne l k v hne
  · rw [if_neg hmem]
    cases hcase : l.lookup k2 with
    | some w => rw [lookup_append_left_of_some hcase]
    | none =>
        rw [lookup_append_of_none hcase, lookup_cons_ne hne]
        simp

theorem assocSet_ne_nil {β : Type} (l : List (String × β)) (k : String)
    (v : β) : assocSet l k v ≠ [] := by
  unfold assocSet
  by_cases hmem : l.any (fun p => p.1 = k) = true
  · rw [if_pos hmem]
    cases l with
    | nil => simp at hmem
    | cons p t => simp
  · rw [if_neg hmem]
    simp

theorem any_key_of_lookup_some {β : Type} {l : List (String × β)}
    {k : String} {v : β} (h : l.lookup k = some v) :
    l.any (fun p => p.1 = k) = true := by
  rcases Bool.eq_false_or_eq_true (l.any (fun p => p.1 = k)) with hx | hx
  · exact hx
  · rw [lookup_eq_none_iff_any.mpr hx] at h
    exact absurd h (by simp)

theorem length_get_array (fcast : Int → Int) (c : CArray) :
    (get_array fcast c).length = c.values.length := by
  unfold get_array
  by_cases hc : (c.ctype = "float" ∨ c.ctype = "double") <;> simp [hc]

theorem lookup_mapValues_self (l : List (String × CArray)) (name : String)
    (vals : List Int) :
    (l.map (fun p =>
        if p.1 = name then (p.1, (⟨p.2.ctype, vals, p.2.alloc⟩ : CArray))
        else p)).lookup name =
      (l.lookup name).map (fun c => (⟨c.ctype, vals, c.alloc⟩ : CArray)) := by
  induction l with
  | nil => simp
  | cons p t ih =>
      obtain ⟨a, b⟩ := p
      by_cases hk : a = name
      · subst hk
        simp only [List.map_cons, eq_self_iff_true, if_true]
        rw [lookup_cons_self, lookup_cons_self]
        rfl
      · simp only [List.map_cons, if_neg hk]
        by_cases hk2 : name = a
        · exact absurd hk2.symm hk
        · rw [lookup_cons_ne hk2, lookup_cons_ne hk2]
          exact ih

theorem getPropOrConst_setData (pa : ParticleArray) (name : String)
    (vals : List Int) (ca : CArray)
    (hca : pa.getPropOrConst name = some ca) :
    (pa.setData name vals).getPropOrConst name =
      some (⟨ca.ctype, vals, ca.alloc⟩ : CArray) := by
  unfold ParticleArray.getPropOrConst at hca ⊢
  unfold ParticleArray.setData
  cases hp : pa.properties.lookup name with
  | some c =>
      rw [hp] at hca
      have hc : c = ca := by
        simpa using hca
      subst hc
      have hany : pa.properties.any (fun p => p.1 = name) = true :=
        any_key_of_lookup_some hp
      rw [keys_contains_eq_any, hany]
      simp only [if_true]
      rw [lookup_mapValues_self, hp]
      rfl
  | none =>
      rw [hp] at hca
      have hconst : pa.constants.lookup name = some ca := hca
      have hany : pa.properties.any (fun p => p.1 = name) = false :=
        lookup_eq_none_iff_any.mp hp
      rw [keys_contains_eq_any, hany]
      simp only [Bool.false_eq_true, if_false]
      show (match pa.properties.lookup name with
        | some c => some c
        | none => (pa.constants.map (fun p : String × CArray =>
            if p.1 = name then (p.1, (⟨p.2.ctype, vals, p.2.alloc⟩ : CArray))
            else p)).lookup name) = _
      rw [hp]
      show (pa.constants.map (fun p : String × CArray =>
          if p.1 = name then (p.1, (⟨p.2.ctype, vals, p.2.alloc⟩ : CArray))
          else p)).lookup name = _
      rw [lookup_mapValues_self, hconst]
      rfl

theorem blockWrite_take_min (dst src : List Int) :
    (blockWrite dst src).take (min src.length dst.length) =
      src.take dst.length := by
  by_cases hle : src.length ≤ dst.length
  · rw [blockWrite_eq_of_le hle, min_eq_left hle,
      List.take_append_eq_append_take]
    simp [List.take_of_length_le hle]
  · push_neg at hle
    have hdrop : dst.drop src.length = [] :=
      List.drop_eq_nil_of_le (le_of_lt hle)
    unfold blockWrite
    rw [hdrop, List.append_nil, min_eq_right (le_of_lt hle)]
    rw [List.take_take, min_self]

theorem add_prop_eq (fcast : Int → Int) (uninit : Nat → Nat → Int)
    (pa : ParticleArray) (h : Heap) (dh : DeviceHelper) (name : String)
    (ca : CArray) :
    DeviceHelper.add_prop fcast uninit pa (h, dh) name ca =
      (h ++ [blockWrite ((List.range ca.alloc).map (uninit h.length))
          (get_array fcast ca)],
        ⟨assocSet dh.data name h.length,
          assocSet dh.attrs name ⟨h.length, ca.values.length⟩,
          if (pa.properties.map Prod.fst).contains name then
            dh.props ++ [name]
          else dh.props,
          dh.alloc⟩) := by
  simp only [DeviceHelper.add_prop, clEmpty, CArray.length]
  rw [heapGet_append_last, heapSet_append_last]

theorem addProps_nil (fcast : Int → Int) (uninit : Nat → Nat → Int)
    (pa : ParticleArray) (s : Heap × DeviceHelper) :
    addProps fcast uninit pa s [] = s := rfl

theorem addProps_cons (fcast : Int → Int) (uninit : Nat → Nat → Int)
    (pa : ParticleArray) (s : Heap × DeviceHelper) (p : String × CArray)
    (L : List (String × CArray)) :
    addProps fcast uninit pa s (p :: L) =
      addProps fcast uninit pa
        (DeviceHelper.add_prop fcast uninit pa s p.1 p.2) L := rfl

theorem any_reverse_eq {α : Type} (l : List α) (p : α → Bool) :
    l.reverse.any p = l.any p := by
  induction l with
  | nil => rfl
  | cons x t ih => simp [List.reverse_cons, List.any_append, ih, Bool.or_comm]

theorem addProps_spec (fcast : Int → Int) (uninit : Nat → Nat → Int)
    (pa : ParticleArray) :
    ∀ (L : List (String × CArray)) (h : Heap) (dh : DeviceHelper),
    (∀ n r, dh.data.lookup n = some r → r < h.length) →
    (∃ t, (addProps fcast uninit pa (h, dh) L).1 = h ++ t) ∧
    ((addProps fcast uninit pa (h, dh) L).2.props =
      dh.props ++ (L.map Prod.fst).filter
        (fun n => (pa.properties.map Prod.fst).contains n)) ∧
    ((addProps fcast uninit pa (h, dh) L).2.alloc = dh.alloc) ∧
    (∀ n r, (addProps fcast uninit pa (h, dh) L).2.data.lookup n = some r →
      r < (addProps fcast uninit pa (h, dh) L).1.length) ∧
    ((addProps fcast uninit pa (h, dh) L).2.data.isEmpty =
      (dh.data.isEmpty && L.isEmpty)) ∧
    (∀ n, ¬ ((L.map Prod.fst).contains n = true) →
      (addProps fcast uninit pa (h, dh) L).2.data.lookup n =
        dh.data.lookup n ∧
      (addProps fcast uninit pa (h, dh) L).2.attrs.lookup n =
        dh.attrs.lookup n) ∧
    (∀ n ca, (L.reverse).lookup n = some ca →
      ∃ r, (addProps fcast uninit pa (h, dh) L).2.data.lookup n = some r ∧
        r < (addProps fcast uninit pa (h, dh) L).1.length ∧
        (addProps fcast uninit pa (h, dh) L).2.attrs.lookup n =
          some ⟨r, ca.values.length⟩ ∧
        (heapGet (addProps fcast uninit pa (h, dh) L).1 r).length = ca.alloc ∧
        (heapGet (addProps fcast uninit pa (h, dh) L).1 r).take
            (min ca.values.length ca.alloc) =
          (get_array fcast ca).take ca.alloc) := by
  intro L
  induction L with
  | nil =>
      intro h dh hvalid
      refine ⟨⟨[], by simp [addProps_nil]⟩, by simp [addProps_nil],
        rfl, ?_, by simp [addProps_nil], ?_, ?_⟩
      · intro n r hr
        simpa [addProps_nil] using hvalid n r hr
      · intro n hn
        exact ⟨rfl, rfl⟩
      · intro n ca hca
        simp at hca
  | cons p L ih =>
      obtain ⟨n₀, ca₀⟩ := p
      intro h dh hvalid
      rw [addProps_cons, add_prop_eq]
      have hvalid1 : ∀ n r,
          ((⟨assocSet dh.data n₀ h.length,
            assocSet dh.attrs n₀ ⟨h.length, ca₀.values.length⟩,
            if (pa.properties.map Prod.fst).contains n₀ then
              dh.props ++ [n₀]
            else dh.props,
            dh.alloc⟩ : DeviceHelper)).data.lookup n = some r →
          r < (h ++ [blockWrite ((List.range ca₀.alloc).map (uninit h.length))
            (get_array fcast ca₀)]).length := by
        intro n r hr
        simp only [List.length_append, List.length_singleton]
        by_cases hn : n = n₀
        · subst hn
          rw [lookup_assocSet_self] at hr
          cases hr
          omega
        · rw [lookup_assocSet_ne _ _ _ hn] at hr
          have := hvalid n r hr
          omega
      obtain ⟨⟨t, ht⟩, hprops, halloc, hval, hemp, huntouched, hlast⟩ :=
        ih (h ++ [blockWrite ((List.range ca₀.alloc).map (uninit h.length))
            (get_array fcast ca₀)])
          ⟨assocSet dh.data n₀ h.length,
            assocSet dh.attrs n₀ ⟨h.length, ca₀.values.length⟩,
            (if (pa.properties.map Prod.fst).contains n₀ then
              dh.props ++ [n₀]
            else dh.props),
            dh.alloc⟩ hvalid1
      refine ⟨⟨blockWrite ((List.range ca₀.alloc).map (uninit h.length))
          (get_array fcast ca₀) :: t, by rw [ht]; simp⟩, ?_, halloc, hval,
        ?_, ?_, ?_⟩
      · rw [hprops, List.map_cons, List.filter_cons]
        by_cases hc : (pa.properties.map Prod.fst).contains n₀ = true
        · rw [if_pos hc, if_pos hc, List.append_assoc]
          rfl
        · rw [if_neg hc, if_neg hc]
      · rw [hemp]
        have hne : (assocSet dh.data n₀ h.length).isEmpty = false := by
          rcases hx : assocSet dh.data n₀ h.length with _ | ⟨y, ys⟩
          · exact absurd hx (assocSet_ne_nil dh.data n₀ h.length)
          · rfl
        rw [hne]
        simp
      · intro n hn
        have hn0 : n ≠ n₀ ∧ ¬ ((L.map Prod.fst).contains n = true) := by
          constructor
          · intro hx
            subst hx
            refine hn (by simp [List.contains_cons])
          · intro hx
            refine hn ?_
            have hany : L.any (fun p => p.1 = n) = true := by
              rw [← keys_contains_eq_any]
              exact hx
            rw [List.any_eq_true] at hany
            obtain ⟨q, hq, hqn⟩ := hany
            simp only [decide_eq_true_eq] at hqn
            simp [List.contains_cons]
            right
            exact ⟨q.2, by rw [← hqn]; exact hq⟩
        obtain ⟨h1, h2⟩ := huntouched n hn0.2
        rw [h1, h2, lookup_assocSet_ne _ _ _ hn0.1,
          lookup_assocSet_ne _ _ _ hn0.1]
        exact ⟨rfl, rfl⟩
      · intro n ca hca
        rw [List.reverse_cons] at hca
        cases hrev : (L.reverse).lookup n with
        | some ca2 =>
            rw [lookup_append_left_of_some hrev] at hca
            have hc2 : ca2 = ca := by simpa using hca
            subst hc2
            exact hlast n ca2 hrev
        | none =>
            rw [lookup_append_of_none hrev] at hca
            by_cases hn : n = n₀
            · subst hn
              rw [lookup_cons_self] at hca
              have hc0 : ca₀ = ca := by simpa using hca
              subst hc0
              have hnotin : ¬ ((L.map Prod.fst).contains n = true) := by
                rw [keys_contains_eq_any]
                have := lookup_eq_none_iff_any.mp hrev
                rw [any_reverse_eq] at this
                simp [this]
              obtain ⟨h1, h2⟩ := huntouched n hnotin
              refine ⟨h.length, ?_, ?_, ?_, ?_, ?_⟩
              · rw [h1, lookup_assocSet_self]
              · rw [ht]
                simp only [List.length_append, List.length_singleton]
                omega
              · rw [h2, lookup_assocSet_self]
              · rw [ht, heapGet_append_left (by simp), heapGet_append_last]
                simp [length_blockWrite]
              · rw [ht, heapGet_append_left (by simp), heapGet_append_last]
                have := blockWrite_take_min
                  ((List.range ca₀.alloc).map (uninit h.length))
                  (get_array fcast ca₀)
                rw [length_get_array] at this
                simpa using this
            · rw [lookup_cons_ne hn] at hca
              simp at hca

theorem reallocStep_eq (uninit : Nat → Nat → Int) (newSize : Nat)
    (h : Heap) (data : List (String × Nat)) (prop : String) (r : Nat)
    (hr : data.lookup prop = some r) :
    reallocStep uninit newSize (h, data) prop =
      (h ++ [blockWrite ((List.range newSize).map (uninit h.length))
          ((heapGet h r).take (min (heapGet h r).length newSize))],
        assocSet data prop h.length) := by
  simp only [reallocStep, clEmpty]
  rw [hr]
  simp only [Option.getD_some]
  rw [heapGet_append_last, heapSet_append_last]

theorem take_blockWrite_prefix (fb old : List Int) (sz : Nat)
    (hsz : sz ≤ old.length) (hsz2 : sz ≤ fb.length) :
    (blockWrite fb (old.take sz)).take sz = old.take sz := by
  have hlen : (old.take sz).length = sz := by
    rw [List.length_take]
    omega
  have hle : (old.take sz).length ≤ fb.length := by omega
  rw [blockWrite_eq_of_le hle]
  calc (old.take sz ++ fb.drop (old.take sz).length).take sz
      = (old.take sz ++ fb.drop (old.take sz).length).take
          (old.take sz).length := by rw [hlen]
    _ = old.take sz := List.take_left _ _

theorem reallocFold_spec (uninit : Nat → Nat → Int) (newSize : Nat) :
    ∀ (ps : List String) (h : Heap) (data : List (String × Nat)),
    ps.Nodup →
    (∀ p ∈ ps, ∃ r, data.lookup p = some r ∧ r < h.length) →
    (∃ t, (ps.foldl (reallocStep uninit newSize) (h, data)).1 = h ++ t) ∧
    (∀ q, ¬ q ∈ ps →
      (ps.foldl (reallocStep uninit newSize) (h, data)).2.lookup q =
        data.lookup q) ∧
    (∀ p, p ∈ ps → ∀ r, data.lookup p = some r →
      ∃ r2, (ps.foldl (reallocStep uninit newSize) (h, data)).2.lookup p =
          some r2 ∧
        r2 < (ps.foldl (reallocStep uninit newSize) (h, data)).1.length ∧
        (heapGet (ps.foldl (reallocStep uninit newSize) (h, data)).1
          r2).length = newSize ∧
        (heapGet (ps.foldl (reallocStep uninit newSize) (h, data)).1
            r2).take (min (heapGet h r).length newSize) =
          (heapGet h r).take (min (heapGet h r).length newSize)) := by
  intro ps
  induction ps with
  | nil =>
      intro h data hnd hval
      refine ⟨⟨[], by simp⟩, fun q hq => rfl, ?_⟩
      intro p hp
      simp at hp
  | cons p0 ps ih =>
      intro h data hnd hval
      obtain ⟨r0, hr0, hr0lt⟩ := hval p0 (by simp)
      have hstep : (p0 :: ps).foldl (reallocStep uninit newSize) (h, data) =
          ps.foldl (reallocStep uninit newSize)
            (h ++ [blockWrite ((List.range newSize).map (uninit h.length))
              ((heapGet h r0).take (min (heapGet h r0).length newSize))],
            assocSet data p0 h.length) := by
        rw [List.foldl_cons, reallocStep_eq uninit newSize h data p0 r0 hr0]
      have hp0nin : ¬ p0 ∈ ps := (List.nodup_cons.mp hnd).1
      have hndps : ps.Nodup := (List.nodup_cons.mp hnd).2
      have hval1 : ∀ p ∈ ps, ∃ r,
          (assocSet data p0 h.length).lookup p = some r ∧
          r < (h ++ [blockWrite ((List.range newSize).map (uninit h.length))
            ((heapGet h r0).take (min (heapGet h r0).length newSize))]).length := by
        intro p hp
        have hpne : p ≠ p0 := fun hx => hp0nin (hx ▸ hp)
        obtain ⟨r, hr, hrlt⟩ := hval p (by simp [hp])
        refine ⟨r, ?_, ?_⟩
        · rw [lookup_assocSet_ne _ _ _ hpne, hr]
        · simp only [List.length_append, List.length_singleton]
          omega
      obtain ⟨⟨t, ht⟩, huntouch, hmain⟩ := ih _ _ hndps hval1
      rw [hstep]
      refine ⟨⟨blockWrite ((List.range newSize).map (uninit h.length))
          ((heapGet h r0).take (min (heapGet h r0).length newSize)) :: t,
        by rw [ht]; simp⟩, ?_, ?_⟩
      · intro q hq
        have hqne : q ≠ p0 := fun hx => hq (by simp [hx])
        have hqnin : ¬ q ∈ ps := fun hx => hq (by simp [hx])
        rw [huntouch q hqnin, lookup_assocSet_ne _ _ _ hqne]
      · intro p hp r hr
        by_cases hpp : p = p0
        · subst hpp
          have hrr : r = r0 := by
            rw [hr] at hr0
            exact (Option.some.injEq .. ▸ hr0).symm ▸ rfl
          subst hrr
          have hlook : (ps.foldl (reallocStep uninit newSize)
              (h ++ [blockWrite ((List.range newSize).map (uninit h.length))
                ((heapGet h r).take (min (heapGet h r).length newSize))],
              assocSet data p h.length)).2.lookup p = some h.length := by
            rw [huntouch p hp0nin, lookup_assocSet_self]
          refine ⟨h.length, hlook, ?_, ?_, ?_⟩
          · rw [ht]
            simp only [List.length_append, List.length_singleton]
            omega
          · rw [ht, heapGet_append_left (by simp), heapGet_append_last]
            simp [length_blockWrite]
          · rw [ht, heapGet_append_left (by simp), heapGet_append_last]
            exact take_blockWrite_prefix _ _ _ (by omega) (by simp)
        · have hpin : p ∈ ps := by
            rcases List.mem_cons.mp hp with hx | hx
            · exact absurd hx hpp
            · exact hx
          have hr1 : (assocSet data p0 h.length).lookup p = some r := by
            rw [lookup_assocSet_ne _ _ _ hpp, hr]
          obtain ⟨r2, hl2, hlt2, hlen2, htake2⟩ := hmain p hpin r hr1
          have hrlt : r < h.length := by
            obtain ⟨rr, hrr, hrrlt⟩ := hval p (by simp [hpin])
            have : r = rr := by
              rw [hr] at hrr
              simpa using hrr
            omega
          have hsame : heapGet (h ++ [blockWrite
              ((List.range newSize).map (uninit h.length))
              ((heapGet h r0).take (min (heapGet h r0).length newSize))]) r =
              heapGet h r := heapGet_append_left hrlt
          rw [hsame] at htake2
          exact ⟨r2, hl2, hlt2, hlen2, htake2⟩

theorem attrsFold_spec (newSize : Nat) (dataF : String → Nat) :
    ∀ (ps : List String) (ats : List (String × View)),
    (∀ p, p ∈ ps →
      (ps.foldl (fun ats prop => assocSet ats prop ⟨dataF prop, newSize⟩)
        ats).lookup p = some ⟨dataF p, newSize⟩) ∧
    (∀ q, ¬ q ∈ ps →
      (ps.foldl (fun ats prop => assocSet ats prop ⟨dataF prop, newSize⟩)
        ats).lookup q = ats.lookup q) := by
  intro ps
  induction ps with
  | nil =>
      intro ats
      exact ⟨fun p hp => absurd hp (by simp), fun q hq => rfl⟩
  | cons p0 ps ih =>
      intro ats
      rw [List.foldl_cons]
      obtain ⟨ihm, ihu⟩ := ih (assocSet ats p0 ⟨dataF p0, newSize⟩)
      constructor
      · intro p hp
        by_cases hpin : p ∈ ps
        · exact ihm p hpin
        · have hpp : p = p0 := by
            rcases List.mem_cons.mp hp with hx | hx
            · exact hx
            · exact absurd hx hpin
          subst hpp
          rw [ihu p hpin, lookup_assocSet_self]
      · intro q hq
        have hqne : q ≠ p0 := fun hx => hq (by simp [hx])
        have hqnin : ¬ q ∈ ps := fun hx => hq (by simp [hx])
        rw [ihu q hqnin, lookup_assocSet_ne _ _ _ hqne]

theorem take_take_eq_of_le (l1 l2 : List Int) (sz m n1 n2 : Nat)
    (hm1 : m ≤ n1) (hm2 : m ≤ n2) (hmsz : m ≤ sz)
    (heq : l1.take sz = l2.take sz) :
    (l1.take n1).take m = (l2.take n2).take m := by
  rw [List.take_take, List.take_take, min_eq_left hm1, min_eq_left hm2]
  have h1 : l1.take m = (l1.take sz).take m := by
    rw [List.take_take, min_eq_left hmsz]
  have h2 : l2.take m = (l2.take sz).take m := by
    rw [List.take_take, min_eq_left hmsz]
  rw [h1, h2, heq]

theorem array_mk (h : Heap) (r : Nat) (len : Int) (al : Nat) (dt : String) :
    DeviceArray.array h ⟨r, len, al, dt⟩ = pyTake (heapGet h r) len := rfl

theorem array_congr_heap {h1 h2 : Heap} (a : DeviceArray)
    (hh : heapGet h1 a.dataRef = heapGet h2 a.dataRef) :
    DeviceArray.array h1 a = DeviceArray.array h2 a := by
  unfold DeviceArray.array
  rw [hh]

/-!
Claim theorems.
-/

/-- C1 (amended): two calls to get_kernel with the same kernel name and
the same keyword parameters passed in the same order resolve to the
identical compiled kernel object with no second compilation: after a
successful call, repeating it with the identical argument list returns
the same kernel and leaves the helper state (cache and construction
counter) unchanged.  The cache key is the call-ordered tuple of keyword
items, so this holds per argument order, not per parameter set. -/
theorem c1_get_kernel_repeat_same_order
    (tplRender : String → String → List (String × Int) → Except Unit String)
    (compileOk : String → String → String → String → Bool)
    (s : GPUNNPSHelper) (kernel_name : String)
    (kwargs : List (String × Int)) (k : Nat) (s2 : GPUNNPSHelper)
    (h1 : get_kernel tplRender compileOk s kernel_name kwargs = (.ok k, s2)) :
    get_kernel tplRender compileOk s2 kernel_name kwargs = (.ok k, s2) := by
  unfold get_kernel at h1 ⊢
  cases hl : List.lookup (kernel_name, kwargs) s.cache with
  | some knl =>
      simp only [hl] at h1
      obtain ⟨hk, hs⟩ := Prod.mk.injEq .. ▸ h1
      subst hs
      simp only [hl, hk]
  | none =>
      simp only [hl] at h1
      cases hc : get_code tplRender s kernel_name kwargs with
      | error e => simp [hc] at h1
      | ok p =>
          simp only [hc] at h1
          by_cases hok : compileOk p.1 p.2 kernel_name s.preamble
          · simp only [hok, if_true] at h1
            obtain ⟨hk, hs⟩ := Prod.mk.injEq .. ▸ h1
            subst hs
            have hlook :
                List.lookup (kernel_name, kwargs)
                  (s.cache ++ [((kernel_name, kwargs), s.nextId)]) =
                  some s.nextId := by
              rw [lookup_append_of_none hl]
              exact lookup_cons_self _ _ _
            simp only [hlook, hk]
          · simp [hok] at h1

/-- C1 witness: a concrete first call from an empty cache succeeds, and
the repeated call returns the same kernel object with the state
untouched. -/
theorem c1_witness :
    get_kernel (fun _ _ _ => .ok "t") (fun _ _ _ _ => true)
        (⟨"float", "pre", [], 0⟩ : GPUNNPSHelper) "foo" [("a", 1), ("b", 2)] =
      (.ok 0, ⟨"float", "pre", [(("foo", [("a", 1), ("b", 2)]), 0)], 1⟩) ∧
    get_kernel (fun _ _ _ => .ok "t") (fun _ _ _ _ => true)
        (⟨"float", "pre", [(("foo", [("a", 1), ("b", 2)]), 0)], 1⟩ : GPUNNPSHelper)
        "foo" [("a", 1), ("b", 2)] =
      (.ok 0, ⟨"float", "pre", [(("foo", [("a", 1), ("b", 2)]), 0)], 1⟩) := by
  constructor
  · rfl
  · exact c1_get_kernel_repeat_same_order _ _
      (⟨"float", "pre", [], 0⟩ : GPUNNPSHelper) _ _ _ _ rfl

/-- C1 counterexample: the cache key is tuple(kwargs.items()) in call
order, so passing the same parameter set in a different order misses the
cache: after get_kernel("foo", a=1, b=2) produced kernel object 0, the
call get_kernel("foo", b=2, a=1) compiles a second kernel (the
construction counter advances to 2) and returns the distinct object 1,
refuting order-independence of the cache. -/
theorem c1_counterexample :
    get_kernel (fun _ _ _ => .ok "t") (fun _ _ _ _ => true)
        (⟨"float", "pre", [], 0⟩ : GPUNNPSHelper) "foo" [("a", 1), ("b", 2)] =
      (.ok 0, ⟨"float", "pre", [(("foo", [("a", 1), ("b", 2)]), 0)], 1⟩) ∧
    get_kernel (fun _ _ _ => .ok "t") (fun _ _ _ _ => true)
        (⟨"float", "pre", [(("foo", [("a", 1), ("b", 2)]), 0)], 1⟩ : GPUNNPSHelper)
        "foo" [("b", 2), ("a", 1)] =
      (.ok 1,
        ⟨"float", "pre",
          [(("foo", [("a", 1), ("b", 2)]), 0),
            (("foo", [("b", 2), ("a", 1)]), 1)], 2⟩) ∧
    (0 : Nat) ≠ 1 := by
  refine ⟨rfl, rfl, by decide⟩

/-- C8: when get_kernel fails, in the template rendering or in the
backend compilation, the helper state and in particular the kernel cache
are left exactly as they were: no entry is stored under the requested
key and previously cached entries are unaffected, since the only cache
mutation in the source comes after a successful compilation. -/
theorem c8_get_kernel_failure_leaves_cache
    (tplRender : String → String → List (String × Int) → Except Unit String)
    (compileOk : String → String → String → String → Bool)
    (s : GPUNNPSHelper) (kernel_name : String)
    (kwargs : List (String × Int)) (e : Unit)
    (hfail : (get_kernel tplRender compileOk s kernel_name kwargs).1 = .error e) :
    (get_kernel tplRender compileOk s kernel_name kwargs).2 = s := by
  unfold get_kernel at hfail ⊢
  cases hl : List.lookup (kernel_name, kwargs) s.cache with
  | some knl => simp [hl] at hfail
  | none =>
      simp only [hl] at hfail ⊢
      cases hc : get_code tplRender s kernel_name kwargs with
      | error e2 => simp [hc]
      | ok p =>
          simp only [hc] at hfail ⊢
          by_cases hok : compileOk p.1 p.2 kernel_name s.preamble
          · simp [hok] at hfail
          · simp [hok]

/-- C8 witness: a failing template render on a concrete call leaves the
concrete one-entry cache state untouched. -/
theorem c8_witness :
    (get_kernel (fun _ _ _ => .error ()) (fun _ _ _ _ => true)
        (⟨"float", "pre", [(("bar", []), 0)], 1⟩ : GPUNNPSHelper)
        "foo" [("a", 3)]).1 = .error () ∧
    (get_kernel (fun _ _ _ => .error ()) (fun _ _ _ _ => true)
        (⟨"float", "pre", [(("bar", []), 0)], 1⟩ : GPUNNPSHelper)
        "foo" [("a", 3)]).2 = ⟨"float", "pre", [(("bar", []), 0)], 1⟩ :=
  ⟨rfl, c8_get_kernel_failure_leaves_cache _ _ _ _ _ () rfl⟩

/-- C2 (amended): a negative size is not rejected: reserve with a
negative size takes the size-greater-than-alloc branch negatively and is
a no-op, and resize then silently stores the negative value as the
logical length; no InvalidSize error exists on this path in the source. -/
theorem c2_negative_resize_silently_proceeds (uninit : Nat → Nat → Int)
    (h : Heap) (a : DeviceArray) (size : Int) (hneg : size < 0) :
    DeviceArray.reserve uninit h a size = (h, a) ∧
    DeviceArray.resize uninit h a size =
      (h, ⟨a.dataRef, size, a.alloc, a.dtype⟩) := by
  have hcond : ¬ ((a.alloc : Int) < size) := by
    have : (0 : Int) ≤ (a.alloc : Int) := Int.natCast_nonneg a.alloc
    omega
  refine ⟨by simp [DeviceArray.reserve, hcond], ?_⟩
  simp [DeviceArray.resize, DeviceArray.reserve, hcond]

/-- C2 witness: the amended fact applied to a concrete 3-element buffer
and the request resize(-1). -/
theorem c2_witness :
    ((-1 : Int) < 0) ∧
    DeviceArray.resize (fun _ _ => 0) [[5, 6, 7]] ⟨0, 3, 3, "f"⟩ (-1) =
      ([[5, 6, 7]], ⟨0, -1, 3, "f"⟩) :=
  ⟨by decide,
    (c2_negative_resize_silently_proceeds (fun _ _ => 0) [[5, 6, 7]]
      ⟨0, 3, 3, "f"⟩ (-1) (by decide)).2⟩

/-- C2 counterexample: the claim that a negative resize fails with an
InvalidSize error is false: on a concrete 3-element buffer, resize(-1)
returns normally, records length -1, and the subsequently refreshed view
is the Python slice data[:-1], the first two elements. -/
theorem c2_counterexample :
    DeviceArray.resize (fun _ _ => 0) [[5, 6, 7]] ⟨0, 3, 3, "f"⟩ (-1) =
      ([[5, 6, 7]], ⟨0, -1, 3, "f"⟩) ∧
    DeviceArray.array [[5, 6, 7]] ⟨0, -1, 3, "f"⟩ = [5, 6] := by
  decide

/-- C4 counterexample: there is no nonzero constant d with allocated
capacity max(length, d) for every requested length: length 0 allocates
16 elements, forcing d to be 16, while length 1 allocates exactly 1
element rather than max(1, 16). -/
theorem c4_counterexample :
    ¬ ∃ d : Nat, 0 < d ∧ ∀ n : Nat,
      ((DeviceArray.init (fun _ _ => 0) [] "f" n).2).alloc = max n d := by
  rintro ⟨d, hd, hall⟩
  have h0 := hall 0
  have h1 := hall 1
  simp [DeviceArray.init, clEmpty] at h0 h1
  omega

/-- C4 (amended): creating a Device Buffer allocates capacity equal to
the requested length, except that a zero request allocates the default
minimum of 16 elements; the logical length is the requested length, the
backing block has exactly the allocated capacity, and the view is the
first length elements of the storage. -/
theorem c4_create_capacity_length_view (uninit : Nat → Nat → Int)
    (h : Heap) (dtype : String) (n : Nat) :
    ((DeviceArray.init uninit h dtype n).2).alloc =
      (if n = 0 then 16 else n) ∧
    ((DeviceArray.init uninit h dtype n).2).length = n ∧
    (heapGet (DeviceArray.init uninit h dtype n).1
        ((DeviceArray.init uninit h dtype n).2).dataRef).length =
      ((DeviceArray.init uninit h dtype n).2).alloc ∧
    DeviceArray.array (DeviceArray.init uninit h dtype n).1
        (DeviceArray.init uninit h dtype n).2 =
      (heapGet (DeviceArray.init uninit h dtype n).1
        ((DeviceArray.init uninit h dtype n).2).dataRef).take n := by
  refine ⟨rfl, rfl, ?_, ?_⟩
  · show (heapGet (h ++ [_]) h.length).length = _
    rw [heapGet_append_last]
    simp [DeviceArray.init]
  · show pyTake (heapGet (h ++ [_]) h.length) (n : Int) = _
    rw [pyTake_natCast]
    exact rfl

/-- C5 (amended): a freshly created Device Buffer has capacity at least
its length and its view has exactly length elements; the element values
are whatever the uninitialized backend allocation held, not a defined
zero or default fill. -/
theorem c5_create_view_exact_length (uninit : Nat → Nat → Int)
    (h : Heap) (dtype : String) (n : Nat) :
    n ≤ ((DeviceArray.init uninit h dtype n).2).alloc ∧
    (DeviceArray.array (DeviceArray.init uninit h dtype n).1
      (DeviceArray.init uninit h dtype n).2).length = n := by
  constructor
  · show n ≤ (if n = 0 then 16 else n)
    by_cases hn : n = 0 <;> simp [hn]
  · show (pyTake (heapGet (h ++ [_]) h.length) (n : Int)).length = n
    rw [pyTake_natCast, heapGet_append_last]
    simp [DeviceArray.init]
    by_cases hn : n = 0 <;> simp [hn]

/-- C5 counterexample: the claim that every view element of a fresh
buffer equals the backend zero/default value is false: the storage comes
from cl.array.empty, whose contents are uninitialized, so no fixed value
d can describe the view of a freshly created length-1 buffer across
admissible backend behaviours. -/
theorem c5_counterexample :
    ¬ ∃ d : Int, ∀ uninit : Nat → Nat → Int,
      DeviceArray.array (DeviceArray.init uninit [] "f" 1).1
        (DeviceArray.init uninit [] "f" 1).2 = [d] := by
  rintro ⟨d, hall⟩
  have h7 := hall (fun _ _ => 7)
  have h0 := hall (fun _ _ => 0)
  have e7 : DeviceArray.array (DeviceArray.init (fun _ _ => 7) [] "f" 1).1
      (DeviceArray.init (fun _ _ => 7) [] "f" 1).2 = [7] := by decide
  have e0 : DeviceArray.array (DeviceArray.init (fun _ _ => 0) [] "f" 1).1
      (DeviceArray.init (fun _ _ => 0) [] "f" 1).2 = [0] := by decide
  rw [e7] at h7
  rw [e0] at h0
  rw [h7.symm] at h0
  simp at h0

/-- C9: copy(b) returns a buffer backed by a fresh storage block,
distinct from the block of b, with the dtype of b, whose logical
contents are exactly the live elements of b; b itself still reads the
same, and mutating the copy afterwards, by fill or by resize, never
changes the contents of b. -/
theorem c9_copy_independent (uninit : Nat → Nat → Int) (h : Heap)
    (a : DeviceArray) (href : a.dataRef < h.length) :
    ((DeviceArray.copy uninit h a).2).dtype = a.dtype ∧
    ((DeviceArray.copy uninit h a).2).length =
      ((DeviceArray.array h a).length : Int) ∧
    DeviceArray.array (DeviceArray.copy uninit h a).1
        (DeviceArray.copy uninit h a).2 = DeviceArray.array h a ∧
    DeviceArray.array (DeviceArray.copy uninit h a).1 a =
      DeviceArray.array h a ∧
    ((DeviceArray.copy uninit h a).2).dataRef ≠ a.dataRef ∧
    (∀ v : Int,
      DeviceArray.array
          (DeviceArray.fill (DeviceArray.copy uninit h a).1
            (DeviceArray.copy uninit h a).2 v) a =
        DeviceArray.array h a) ∧
    (∀ sz : Int,
      DeviceArray.array
          (DeviceArray.resize uninit (DeviceArray.copy uninit h a).1
            (DeviceArray.copy uninit h a).2 sz).1 a =
        DeviceArray.array h a) := by
  have h1len : a.dataRef < (h ++ [(List.range 16).map (uninit h.length)]).length := by
    simp
    omega
  have hcont : DeviceArray.array
      (h ++ [(List.range 16).map (uninit h.length)]) a =
      DeviceArray.array h a := by
    unfold DeviceArray.array
    rw [heapGet_append_left href]
  have hcopy1 : (DeviceArray.copy uninit h a).1 =
      (h ++ [(List.range 16).map (uninit h.length)]) ++
        [DeviceArray.array h a] := by
    simp only [DeviceArray.copy, DeviceArray.init, clEmpty, if_true]
    rw [hcont]
  have hcopy2 : (DeviceArray.copy uninit h a).2 =
      ⟨(h ++ [(List.range 16).map (uninit h.length)]).length,
        ((DeviceArray.array h a).length : Int),
        (DeviceArray.array h a).length, a.dtype⟩ := by
    simp only [DeviceArray.copy, DeviceArray.init, clEmpty, if_true]
    rw [hcont]
  have hrlt : a.dataRef < ((h ++ [(List.range 16).map (uninit h.length)]) ++
      [DeviceArray.array h a]).length := by
    simp
    omega
  have hget2 : heapGet ((h ++ [(List.range 16).map (uninit h.length)]) ++
      [DeviceArray.array h a]) a.dataRef = heapGet h a.dataRef := by
    rw [heapGet_append_left h1len, heapGet_append_left href]
  have hne : (h ++ [(List.range 16).map (uninit h.length)]).length ≠
      a.dataRef := by
    simp
    omega
  refine ⟨by rw [hcopy2], by rw [hcopy2], ?_, ?_, ?_, ?_, ?_⟩
  · rw [hcopy1, hcopy2, array_mk, heapGet_append_last, pyTake_natCast,
      List.take_length]
  · rw [hcopy1]
    exact array_congr_heap a hget2
  · rw [hcopy2]
    exact fun hcontra => absurd hcontra hne
  · intro v
    refine array_congr_heap a ?_
    rw [hcopy1, hcopy2]
    simp only [DeviceArray.fill]
    rw [heapGet_set_ne _ (fun hx => hne hx), hget2]
  · intro sz
    refine array_congr_heap a ?_
    rw [hcopy1, hcopy2]
    simp only [DeviceArray.resize, DeviceArray.reserve, clEmpty]
    by_cases hsz : ((DeviceArray.array h a).length : Int) < sz
    · simp only [hsz, if_true]
      rw [heapSet_append_last, heapGet_append_left hrlt, heapGet_append_left h1len,
        heapGet_append_left href]
    · simp only [hsz, if_false]
      exact hget2

/-- C9 witness: copy of a concrete two-live-element buffer, checked via
the general theorem; the copied view is the live contents and a fill of
the copy with -9 leaves the source contents intact. -/
theorem c9_witness :
    ((0 : Nat) < 1) ∧
    DeviceArray.array (DeviceArray.copy (fun _ _ => 0) [[1, 2, 3]]
        ⟨0, 2, 3, "f"⟩).1 (DeviceArray.copy (fun _ _ => 0) [[1, 2, 3]]
        ⟨0, 2, 3, "f"⟩).2 = DeviceArray.array [[1, 2, 3]] ⟨0, 2, 3, "f"⟩ ∧
    DeviceArray.array
        (DeviceArray.fill (DeviceArray.copy (fun _ _ => 0) [[1, 2, 3]]
          ⟨0, 2, 3, "f"⟩).1 (DeviceArray.copy (fun _ _ => 0) [[1, 2, 3]]
          ⟨0, 2, 3, "f"⟩).2 (-9)) ⟨0, 2, 3, "f"⟩ =
      DeviceArray.array [[1, 2, 3]] ⟨0, 2, 3, "f"⟩ :=
  ⟨by decide,
    (c9_copy_independent (fun _ _ => 0) [[1, 2, 3]] ⟨0, 2, 3, "f"⟩
      (by decide)).2.2.1,
    (c9_copy_independent (fun _ _ => 0) [[1, 2, 3]] ⟨0, 2, 3, "f"⟩
      (by decide)).2.2.2.2.2.1 (-9)⟩

/-- C7: push immediately followed by pull on a known name, with the
stored view consistent with the host array (same logical length, backed
by a live block), returns the host array to exactly the values that the
creation-time precision cast produces: values are mapped by the cast for
float and double typed arrays and pass through unchanged for every other
element type, so the host is observably unchanged modulo the precision
cast. -/
theorem c7_push_pull_roundtrip (fcast : Int → Int) (pa : ParticleArray)
    (h : Heap) (dh : DeviceHelper) (name : String) (v : View) (ca : CArray)
    (hattr : dh.attrs.lookup name = some v)
    (hca : pa.getPropOrConst name = some ca)
    (href : v.ref < h.length)
    (hstop : v.stop = ca.values.length)
    (hblock : v.stop ≤ (heapGet h v.ref).length) :
    ∃ h2, DeviceHelper.push1 fcast pa h dh name = some h2 ∧
      DeviceHelper.pull1 pa h2 dh name =
        some (pa.setData name (get_array fcast ca)) ∧
      (pa.setData name (get_array fcast ca)).getPropOrConst name =
        some (⟨ca.ctype, get_array fcast ca, ca.alloc⟩ : CArray) ∧
      (¬(ca.ctype = "float" ∨ ca.ctype = "double") →
        (pa.setData name ca.values).getPropOrConst name = some ca) := by
  have hnp : (get_array fcast ca).length = ca.values.length :=
    length_get_array fcast ca
  have hreadlen : (View.read h v).length = v.stop := by
    unfold View.read
    simp
    omega
  have hguard : (get_array fcast ca).length = (View.read h v).length := by
    rw [hnp, hreadlen, hstop]
  have hpush : DeviceHelper.push1 fcast pa h dh name =
      some (heapSet h v.ref (blockWrite (heapGet h v.ref) (get_array fcast ca))) := by
    unfold DeviceHelper.push1
    rw [hattr, hca]
    simp only [hguard, if_true]
  have hlen2 : (get_array fcast ca).length ≤ (heapGet h v.ref).length := by
    omega
  have hread2 : View.read
      (heapSet h v.ref (blockWrite (heapGet h v.ref) (get_array fcast ca))) v =
      get_array fcast ca := by
    unfold View.read
    rw [heapGet_set_self _ href, blockWrite_eq_of_le hlen2]
    rw [List.take_append_eq_append_take]
    rw [show (get_array fcast ca).take v.stop = get_array fcast ca from
      List.take_of_length_le (by omega)]
    have : v.stop - (get_array fcast ca).length = 0 := by omega
    rw [this]
    simp
  refine ⟨_, hpush, ?_, getPropOrConst_setData pa name _ ca hca, ?_⟩
  · unfold DeviceHelper.pull1
    rw [hattr, hca]
    show some (pa.setData name (View.read
      (heapSet h v.ref (blockWrite (heapGet h v.ref) (get_array fcast ca))) v)) = _
    rw [hread2]
  · intro hnf
    have hres := getPropOrConst_setData pa name ca.values ca hca
    rw [hres]

/-- C7 witness: concrete round trip on a double-typed property with the
identity cast; the host array values survive push followed by pull. -/
theorem c7_witness :
    ((⟨[], [("z", ⟨0, 2⟩)], [], 0⟩ : DeviceHelper).attrs.lookup "z" =
      some ⟨0, 2⟩) ∧
    ∃ h2,
      DeviceHelper.push1 (fun x => x)
          (⟨[("z", ⟨"double", [4, 5], 4⟩)], []⟩ : ParticleArray)
          [[0, 0, 0, 0]] (⟨[], [("z", ⟨0, 2⟩)], [], 0⟩ : DeviceHelper) "z" =
        some h2 ∧
      DeviceHelper.pull1
          (⟨[("z", ⟨"double", [4, 5], 4⟩)], []⟩ : ParticleArray) h2
          (⟨[], [("z", ⟨0, 2⟩)], [], 0⟩ : DeviceHelper) "z" =
        some ((⟨[("z", ⟨"double", [4, 5], 4⟩)], []⟩ : ParticleArray).setData
          "z" (get_array (fun x => x) ⟨"double", [4, 5], 4⟩)) ∧
      ((⟨[("z", ⟨"double", [4, 5], 4⟩)], []⟩ : ParticleArray).setData
          "z" (get_array (fun x => x) ⟨"double", [4, 5], 4⟩)).getPropOrConst
          "z" = some (⟨"double", get_array (fun x => x) ⟨"double", [4, 5], 4⟩,
            4⟩ : CArray) ∧
      (¬(("double" : String) = "float" ∨ ("double" : String) = "double") →
        ((⟨[("z", ⟨"double", [4, 5], 4⟩)], []⟩ : ParticleArray).setData
          "z" [4, 5]).getPropOrConst "z" =
          some (⟨"double", [4, 5], 4⟩ : CArray)) := by
  constructor
  · decide
  · exact c7_push_pull_roundtrip (fun x => x)
      (⟨[("z", ⟨"double", [4, 5], 4⟩)], []⟩ : ParticleArray)
      [[0, 0, 0, 0]] (⟨[], [("z", ⟨0, 2⟩)], [], 0⟩ : DeviceHelper) "z"
      ⟨0, 2⟩ ⟨"double", [4, 5], 4⟩ (by decide) (by decide) (by decide)
      (by decide) (by decide)

/-- C3 (amended): DeviceHelper initialization performs no consistency
check across the managed properties.  With no properties and no
constants the shared size stays 0; otherwise the shared size is set to
the allocated capacity of the device block registered under the literal
name x (the capacity of the host array x, not a common logical length),
and when entries exist but none is named x the constructor raises a
KeyError rather than any InconsistentSizes error. -/
theorem c3_init_alloc_from_x (fcast : Int → Int) (uninit : Nat → Nat → Int)
    (h : Heap) (pa : ParticleArray) :
    (pa.properties = [] ∧ pa.constants = [] →
      DeviceHelper.init fcast uninit h pa = .ok (h, ⟨[], [], [], 0⟩)) ∧
    (∀ caX, ((pa.properties ++ pa.constants).reverse).lookup "x" = some caX →
      ∃ h2 dh2, DeviceHelper.init fcast uninit h pa = .ok (h2, dh2) ∧
        dh2.alloc = caX.alloc) ∧
    (pa.properties ++ pa.constants ≠ [] →
      ((pa.properties ++ pa.constants).reverse).lookup "x" = none →
      DeviceHelper.init fcast uninit h pa = .error .keyError) := by
  have hvac : ∀ n r,
      ((⟨[], [], [], 0⟩ : DeviceHelper)).data.lookup n = some r →
      r < h.length := by
    intro n r hr
    simp [List.lookup] at hr
  obtain ⟨hpre, hprops, halloc, hval, hemp, huntouch, hlast⟩ :=
    addProps_spec fcast uninit pa (pa.properties ++ pa.constants) h
      ⟨[], [], [], 0⟩ hvac
  refine ⟨?_, ?_, ?_⟩
  · rintro ⟨hp, hc⟩
    simp [DeviceHelper.init, hp, hc, addProps_nil]
  · intro caX hx
    obtain ⟨r, hdata, hrlt, hattrs, hlen, htake⟩ := hlast "x" caX hx
    have hnotempty : (addProps fcast uninit pa (h, ⟨[], [], [], 0⟩)
        (pa.properties ++ pa.constants)).2.data.isEmpty = false := by
      rcases hd : (addProps fcast uninit pa (h, ⟨[], [], [], 0⟩)
          (pa.properties ++ pa.constants)).2.data with _ | ⟨y, ys⟩
      · rw [hd] at hdata
        simp [List.lookup] at hdata
      · rfl
    refine ⟨(addProps fcast uninit pa (h, ⟨[], [], [], 0⟩)
        (pa.properties ++ pa.constants)).1,
      ⟨(addProps fcast uninit pa (h, ⟨[], [], [], 0⟩)
          (pa.properties ++ pa.constants)).2.data,
        (addProps fcast uninit pa (h, ⟨[], [], [], 0⟩)
          (pa.properties ++ pa.constants)).2.attrs,
        (addProps fcast uninit pa (h, ⟨[], [], [], 0⟩)
          (pa.properties ++ pa.constants)).2.props,
        (heapGet (addProps fcast uninit pa (h, ⟨[], [], [], 0⟩)
          (pa.properties ++ pa.constants)).1 r).length⟩, ?_, hlen⟩
    simp only [DeviceHelper.init]
    rw [hnotempty]
    simp only [Bool.false_eq_true, if_false]
    rw [hdata]
  · intro hne hnone
    have hLne : (pa.properties ++ pa.constants).isEmpty = false := by
      rcases hL : pa.properties ++ pa.constants with _ | _
      · exact absurd hL hne
      · rfl
    have hempty : (addProps fcast uninit pa (h, ⟨[], [], [], 0⟩)
        (pa.properties ++ pa.constants)).2.data.isEmpty = false := by
      rw [hemp, hLne, Bool.and_false]
    have hnotin : ¬ (((pa.properties ++ pa.constants).map Prod.fst).contains
        "x" = true) := by
      rw [keys_contains_eq_any]
      have := lookup_eq_none_iff_any.mp hnone
      rw [any_reverse_eq] at this
      simp [this]
    obtain ⟨hd, _⟩ := huntouch "x" hnotin
    have hxnone : (addProps fcast uninit pa (h, ⟨[], [], [], 0⟩)
        (pa.properties ++ pa.constants)).2.data.lookup "x" = none := hd
    simp only [DeviceHelper.init]
    rw [hempty]
    simp only [Bool.false_eq_true, if_false]
    rw [hxnone]

/-- C3 witness: the amended description applied to a concrete container
with a single property named x of capacity 4; initialization succeeds
and the shared size is that capacity. -/
theorem c3_witness :
    ((([("x", (⟨"int", [9, 9], 4⟩ : CArray))] ++ []).reverse).lookup "x" =
      some (⟨"int", [9, 9], 4⟩ : CArray)) ∧
    ∃ h2 dh2,
      DeviceHelper.init (fun v => v) (fun _ _ => 0) []
          (⟨[("x", ⟨"int", [9, 9], 4⟩)], []⟩ : ParticleArray) =
        .ok (h2, dh2) ∧ dh2.alloc = 4 :=
  ⟨by decide,
    (c3_init_alloc_from_x (fun v => v) (fun _ _ => 0) []
      (⟨[("x", ⟨"int", [9, 9], 4⟩)], []⟩ : ParticleArray)).2.1
      (⟨"int", [9, 9], 4⟩ : CArray) (by decide)⟩

/-- C3 counterexample: properties x and y disagree on logical length (2
versus 3), yet initialization does not fail with InconsistentSizes: it
succeeds and sets the shared size to 7, the allocated capacity of x,
which is not even the logical length of any property. -/
theorem c3_counterexample :
    DeviceHelper.init (fun v => v) (fun _ _ => 0) []
        (⟨[("x", ⟨"double", [1, 2], 7⟩), ("y", ⟨"double", [1, 2, 3], 3⟩)],
          []⟩ : ParticleArray) =
      .ok ([[1, 2, 0, 0, 0, 0, 0], [1, 2, 3]],
        ⟨[("x", 0), ("y", 1)], [("x", ⟨0, 2⟩), ("y", ⟨1, 3⟩)],
          ["x", "y"], 7⟩) := by
  rfl

/-- C10: when a name is exposed both as a property and as a constant,
initialization registers the property first and the constant second: the
data entry and the stored view under that name end up those of the
constant (its capacity and its logical length), and because add_prop
tests membership in the particle array properties rather than which kind
is being added, the name is appended to the managed list twice. -/
theorem c10_duplicate_prop_const_name (fcast : Int → Int)
    (uninit : Nat → Nat → Int) (h : Heap) (pa : ParticleArray) (w : String)
    (caC caX : CArray)
    (hw : (pa.properties.map Prod.fst).count w = 1)
    (hwc : (pa.constants.map Prod.fst).count w = 1)
    (hconst : (pa.constants.reverse).lookup w = some caC)
    (hx : ((pa.properties ++ pa.constants).reverse).lookup "x" = some caX) :
    ∃ h2 dh2, DeviceHelper.init fcast uninit h pa = .ok (h2, dh2) ∧
      dh2.props.count w = 2 ∧
      ∃ r, dh2.data.lookup w = some r ∧
        dh2.attrs.lookup w = some ⟨r, caC.values.length⟩ ∧
        (heapGet h2 r).length = caC.alloc := by
  have hvac : ∀ n r,
      ((⟨[], [], [], 0⟩ : DeviceHelper)).data.lookup n = some r →
      r < h.length := by
    intro n r hr
    simp [List.lookup] at hr
  obtain ⟨hpre, hprops, halloc, hval, hemp, huntouch, hlast⟩ :=
    addProps_spec fcast uninit pa (pa.properties ++ pa.constants) h
      ⟨[], [], [], 0⟩ hvac
  have hlw : ((pa.properties ++ pa.constants).reverse).lookup w =
      some caC := by
    rw [List.reverse_append]
    exact lookup_append_left_of_some hconst
  obtain ⟨r0, hdataw, hr0lt, hattrw, hlenw, htakew⟩ := hlast w caC hlw
  obtain ⟨rx, hdatax, hrxlt, hattrx, hlenx, htakex⟩ := hlast "x" caX hx
  have hnotempty : (addProps fcast uninit pa (h, ⟨[], [], [], 0⟩)
      (pa.properties ++ pa.constants)).2.data.isEmpty = false := by
    rcases hd : (addProps fcast uninit pa (h, ⟨[], [], [], 0⟩)
        (pa.properties ++ pa.constants)).2.data with _ | ⟨y, ys⟩
    · rw [hd] at hdatax
      simp [List.lookup] at hdatax
    · rfl
  have hpw : (pa.properties.map Prod.fst).contains w = true := by
    apply List.elem_eq_true_of_mem
    apply List.count_pos_iff.mp
    omega
  have hcount : (addProps fcast uninit pa (h, ⟨[], [], [], 0⟩)
      (pa.properties ++ pa.constants)).2.props.count w = 2 := by
    rw [hprops]
    simp only [List.nil_append, List.map_append, List.filter_append,
      List.count_append]
    rw [List.count_filter hpw, List.count_filter hpw, hw, hwc]
  refine ⟨(addProps fcast uninit pa (h, ⟨[], [], [], 0⟩)
      (pa.properties ++ pa.constants)).1,
    ⟨(addProps fcast uninit pa (h, ⟨[], [], [], 0⟩)
        (pa.properties ++ pa.constants)).2.data,
      (addProps fcast uninit pa (h, ⟨[], [], [], 0⟩)
        (pa.properties ++ pa.constants)).2.attrs,
      (addProps fcast uninit pa (h, ⟨[], [], [], 0⟩)
        (pa.properties ++ pa.constants)).2.props,
      (heapGet (addProps fcast uninit pa (h, ⟨[], [], [], 0⟩)
        (pa.properties ++ pa.constants)).1 rx).length⟩, ?_, hcount,
    r0, hdataw, hattrw, hlenw⟩
  simp only [DeviceHelper.init]
  rw [hnotempty]
  simp only [Bool.false_eq_true, if_false]
  rw [hdatax]

/-- C10 witness: a concrete container whose property list holds x and m
and whose constants also hold m; after initialization the managed list
counts m twice and the entry under m is the constant (capacity 1,
logical length 1), not the property (capacity 4, logical length 3). -/
theorem c10_witness :
    (([("x", (⟨"double", [0, 0], 2⟩ : CArray)),
        ("m", ⟨"double", [1, 2, 3], 4⟩)].map Prod.fst).count "m" = 1) ∧
    ∃ h2 dh2,
      DeviceHelper.init (fun v => v) (fun _ _ => 0) []
          (⟨[("x", ⟨"double", [0, 0], 2⟩), ("m", ⟨"double", [1, 2, 3], 4⟩)],
            [("m", ⟨"double", [5], 1⟩)]⟩ : ParticleArray) =
        .ok (h2, dh2) ∧
      dh2.props.count "m" = 2 ∧
      ∃ r, dh2.data.lookup "m" = some r ∧
        dh2.attrs.lookup "m" = some ⟨r, 1⟩ ∧
        (heapGet h2 r).length = 1 :=
  ⟨by decide,
    c10_duplicate_prop_const_name (fun v => v) (fun _ _ => 0) []
      (⟨[("x", ⟨"double", [0, 0], 2⟩), ("m", ⟨"double", [1, 2, 3], 4⟩)],
        [("m", ⟨"double", [5], 1⟩)]⟩ : ParticleArray) "m"
      (⟨"double", [5], 1⟩ : CArray) (⟨"double", [0, 0], 2⟩ : CArray)
      (by decide) (by decide) (by decide) (by decide)⟩

/-- C6 (amended): after resize(n) on a synchronizer whose managed
properties are distinct names backed by live blocks, every managed
property has its view re-stored as the first n elements of its current
block, so the view length is min(n, block capacity): when n exceeds the
shared alloc every managed block is reallocated to capacity exactly n
and the views have length exactly n, but when n is within the shared
alloc a property whose own capacity is below n keeps a shorter view.
Values at indices below min(old view length, n) are preserved, and
entries not in the managed list (the constants) keep their stored views
untouched over a heap that only grew. -/
theorem c6_resize_views (uninit : Nat → Nat → Int) (h : Heap)
    (dh : DeviceHelper) (newSize : Nat)
    (hnd : dh.props.Nodup)
    (hdat : ∀ p ∈ dh.props, ∃ r, dh.data.lookup p = some r ∧ r < h.length) :
    ((DeviceHelper.resize uninit h dh newSize).2.props = dh.props) ∧
    (∃ t, (DeviceHelper.resize uninit h dh newSize).1 = h ++ t) ∧
    (∀ q, ¬ q ∈ dh.props →
      (DeviceHelper.resize uninit h dh newSize).2.attrs.lookup q =
        dh.attrs.lookup q) ∧
    (∀ p, p ∈ dh.props → ∃ r2,
      (DeviceHelper.resize uninit h dh newSize).2.data.lookup p = some r2 ∧
      (DeviceHelper.resize uninit h dh newSize).2.attrs.lookup p =
        some ⟨r2, newSize⟩ ∧
      (View.read (DeviceHelper.resize uninit h dh newSize).1
          ⟨r2, newSize⟩).length =
        min newSize
          (heapGet (DeviceHelper.resize uninit h dh newSize).1 r2).length ∧
      (dh.alloc < newSize →
        (heapGet (DeviceHelper.resize uninit h dh newSize).1 r2).length =
          newSize) ∧
      (∀ r s0, dh.data.lookup p = some r →
        s0 ≤ (heapGet h r).length →
        (View.read (DeviceHelper.resize uninit h dh newSize).1
            ⟨r2, newSize⟩).take (min s0 newSize) =
          (View.read h ⟨r, s0⟩).take (min s0 newSize))) := by
  by_cases hc : dh.alloc < newSize
  · obtain ⟨⟨t, ht⟩, hun, hmain⟩ :=
      reallocFold_spec uninit newSize dh.props h dh.data hnd hdat
    obtain ⟨ham, hau⟩ := attrsFold_spec newSize
      (fun prop => ((dh.props.foldl (reallocStep uninit newSize)
        (h, dh.data)).2.lookup prop).getD 0) dh.props dh.attrs
    simp only [DeviceHelper.resize, if_pos hc]
    refine ⟨by trivial, ⟨t, ht⟩, ?_, ?_⟩
    · intro q hq
      exact hau q hq
    · intro p hp
      obtain ⟨r, hr, hrlt⟩ := hdat p hp
      obtain ⟨r2, hl2, hlt2, hlen2, htake2⟩ := hmain p hp r hr
      have hattr : (dh.props.foldl (fun ats prop => assocSet ats prop
          ⟨((dh.props.foldl (reallocStep uninit newSize)
            (h, dh.data)).2.lookup prop).getD 0, newSize⟩)
          dh.attrs).lookup p = some ⟨r2, newSize⟩ := by
        have := ham p hp
        rw [hl2] at this
        simpa using this
      refine ⟨r2, hl2, hattr, ?_, fun _ => hlen2, ?_⟩
      · unfold View.read
        rw [List.length_take]
      · intro r3 s0 hr3 hs0
        have hr3r : r = r3 := by
          rw [hr] at hr3
          simpa using hr3
        subst hr3r
        unfold View.read
        exact take_take_eq_of_le _ _
          (min (heapGet h r).length newSize) (min s0 newSize) newSize s0
          (min_le_right _ _) (min_le_left _ _)
          (le_min (le_trans (min_le_left _ _) hs0) (min_le_right _ _))
          htake2
  · obtain ⟨ham, hau⟩ := attrsFold_spec newSize
      (fun prop => (dh.data.lookup prop).getD 0) dh.props dh.attrs
    simp only [DeviceHelper.resize, if_neg hc]
    refine ⟨by trivial, ⟨[], by simp⟩, ?_, ?_⟩
    · intro q hq
      exact hau q hq
    · intro p hp
      obtain ⟨r, hr, hrlt⟩ := hdat p hp
      have hattr : (dh.props.foldl (fun ats prop => assocSet ats prop
          ⟨(dh.data.lookup prop).getD 0, newSize⟩) dh.attrs).lookup p =
          some ⟨r, newSize⟩ := by
        have := ham p hp
        rw [hr] at this
        simpa using this
      refine ⟨r, hr, hattr, ?_, fun hx => absurd hx hc, ?_⟩
      · unfold View.read
        rw [List.length_take]
      · intro r3 s0 hr3 hs0
        have hr3r : r = r3 := by
          rw [hr] at hr3
          simpa using hr3
        subst hr3r
        unfold View.read
        exact take_take_eq_of_le _ _ (min s0 newSize) (min s0 newSize)
          newSize s0 (min_le_right _ _) (min_le_left _ _) le_rfl rfl

/-- C6 witness: a concrete one-property synchronizer (x backed by a
3-element block, shared alloc 3) resized to 5: the property is
reallocated, its stored view becomes the first 5 elements of the new
block, and the first 3 values are preserved. -/
theorem c6_witness :
    (["x"].Nodup) ∧
    (DeviceHelper.resize (fun _ _ => 0) [[1, 2, 3]]
        (⟨[("x", 0)], [("x", ⟨0, 3⟩)], ["x"], 3⟩ : DeviceHelper) 5).2.attrs.lookup
        "x" = some ⟨1, 5⟩ ∧
    heapGet (DeviceHelper.resize (fun _ _ => 0) [[1, 2, 3]]
        (⟨[("x", 0)], [("x", ⟨0, 3⟩)], ["x"], 3⟩ : DeviceHelper) 5).1 1 =
      [1, 2, 3, 0, 0] := by
  refine ⟨by decide, ?_, by decide⟩
  obtain ⟨hprops, hpre, hun, hmain⟩ := c6_resize_views (fun _ _ => 0)
    [[1, 2, 3]] (⟨[("x", 0)], [("x", ⟨0, 3⟩)], ["x"], 3⟩ : DeviceHelper) 5
    (by decide)
    (by
      intro p hp
      simp at hp
      subst hp
      exact ⟨0, rfl, by decide⟩)
  obtain ⟨r2, hd, hat, hvl, hcap, hpres⟩ := hmain "x" (by decide)
  have hr2 : r2 = 1 := by
    have hone : (DeviceHelper.resize (fun _ _ => 0) [[1, 2, 3]]
        (⟨[("x", 0)], [("x", ⟨0, 3⟩)], ["x"], 3⟩ : DeviceHelper) 5).2.data.lookup
        "x" = some 1 := by decide
    rw [hone] at hd
    simpa using hd.symm
  rw [hr2] at hat
  exact hat

/-- C6 counterexample: the claim that after resize(n) every managed
property has view length exactly n fails on a reachable synchronizer:
initializing over host arrays x (capacity 10) and y (capacity 4) sets
the shared alloc to 10, so resize(6) skips reallocation and stores
y as its block sliced to [:6], a view of only 4 elements. -/
theorem c6_counterexample :
    DeviceHelper.init (fun v => v) (fun _ _ => 0) []
        (⟨[("x", ⟨"double", [1, 2, 3], 10⟩), ("y", ⟨"double", [4, 5, 6], 4⟩)],
          []⟩ : ParticleArray) =
      .ok ([[1, 2, 3, 0, 0, 0, 0, 0, 0, 0], [4, 5, 6, 0]],
        ⟨[("x", 0), ("y", 1)], [("x", ⟨0, 3⟩), ("y", ⟨1, 3⟩)],
          ["x", "y"], 10⟩) ∧
    (DeviceHelper.resize (fun _ _ => 0)
        [[1, 2, 3, 0, 0, 0, 0, 0, 0, 0], [4, 5, 6, 0]]
        (⟨[("x", 0), ("y", 1)], [("x", ⟨0, 3⟩), ("y", ⟨1, 3⟩)],
          ["x", "y"], 10⟩ : DeviceHelper) 6).2.attrs.lookup "y" =
      some ⟨1, 6⟩ ∧
    (View.read (DeviceHelper.resize (fun _ _ => 0)
        [[1, 2, 3, 0, 0, 0, 0, 0, 0, 0], [4, 5, 6, 0]]
        (⟨[("x", 0), ("y", 1)], [("x", ⟨0, 3⟩), ("y", ⟨1, 3⟩)],
          ["x", "y"], 10⟩ : DeviceHelper) 6).1 ⟨1, 6⟩).length = 4 ∧
    (4 : Nat) ≠ 6 := by
  refine ⟨by rfl, by decide, by decide, by decide⟩

end Pysph
